import Mathlib

/-!
Verification of the pipeline orchestration engine of the PrepBuzz repository
(`src/core/unified_flow_engine.py` and `src/core/flow_engine.py`).

Modelling conventions (shallow embedding):
* Python heterogeneous values (`Any`) are modelled by the inductive type `Val`;
  Python numbers (ints and floats) are modelled as rationals `ℚ` — every
  numeric constant appearing in the engine is a small decimal and all
  comparisons the engine performs on reachable scores pick the same branch
  under exact rational arithmetic as under IEEE doubles.
* Python dicts are insertion-ordered association lists `List (String × Val)`;
  `dict[k] = v` overwrites the first (unique, in Python) occurrence in place,
  `dict.update` folds such writes, `dict.get` returns an `Option`.
* Python exceptions are modelled with `Except String`: a fallible call returns
  `.error msg`; a `try/except` block is a `match` on that value.  A step that
  returns a malformed (non-`FlowResult`) object faults at the first attribute
  access, which in the source happens inside the same `try` block as the step
  call, so it is equivalently modelled by the step raising.
* Wall-clock readings (`time.time()`) and `uuid.uuid4()` are external inputs;
  they are passed in as explicit parameters (`elapsed`, `sessionId`).
-/

namespace PB

/-- Python value (`Any`): strings, numbers (as `ℚ`), booleans, `None`,
lists and insertion-ordered string-keyed dicts. -/
inductive Val where
  | str : String → Val
  | num : ℚ → Val
  | bool : Bool → Val
  | none : Val
  | list : List Val → Val
  | dict : List (String × Val) → Val

/-- A Python dict with string keys, as an insertion-ordered association list. -/
abbrev Ctx := List (String × Val)

/-- `d[k]` / `k in d` for a dict: value at the first matching key. -/
def dictGet? (d : Ctx) (k : String) : Option Val :=
  match d with
  | [] => Option.none
  | (k', v) :: rest => if k' = k then some v else dictGet? rest k

/-- `d.get(k, default)` on a genuine dict (total). -/
def dictGetD (d : Ctx) (k : String) (default : Val) : Val :=
  (dictGet? d k).getD default

/-- `d[k] = v`: overwrite the first occurrence of `k` in place, else append. -/
def dictSet (d : Ctx) (k : String) (v : Val) : Ctx :=
  match d with
  | [] => [(k, v)]
  | (k', v') :: rest => if k' = k then (k', v) :: rest else (k', v') :: dictSet rest k v

/-- `d.update(e)`: write every entry of `e` into `d`, in `e`'s order. -/
def dictUpdate (d e : Ctx) : Ctx :=
  e.foldl (fun acc p => dictSet acc p.1 p.2) d

/-- `v.get(k, default)` on an arbitrary value: raises `AttributeError`
unless `v` is a dict. -/
def pyGetD (v : Val) (k : String) (default : Val) : Except String Val :=
  match v with
  | .dict entries => .ok (dictGetD entries k default)
  | _ => .error "AttributeError: object has no attribute get"

/-- Python `len(v)`: defined for strings, lists and dicts, raises otherwise. -/
def pyLen (v : Val) : Except String Nat :=
  match v with
  | .str s => .ok s.length
  | .list l => .ok l.length
  | .dict l => .ok l.length
  | _ => .error "TypeError: object has no len"

/-- ASCII lower-casing of a string, character by character (the model of
Python `str.lower()` on the ASCII strings the engine handles). -/
def strLower (s : String) : String :=
  String.mk (s.data.map Char.toLower)

/-- Python `v.lower()`: defined for strings only. -/
def pyLower (v : Val) : Except String String :=
  match v with
  | .str s => .ok (strLower s)
  | _ => .error "AttributeError: object has no attribute lower"

/-- One char-list is a prefix of another. -/
def charsPref (sub s : List Char) : Bool :=
  match sub, s with
  | [], _ => true
  | _ :: _, [] => false
  | a :: as, b :: bs => a = b && charsPref as bs

/-- One char-list occurs inside another. -/
def charsHas (s sub : List Char) : Bool :=
  match s with
  | [] => charsPref sub []
  | c :: rest => charsPref sub (c :: rest) || charsHas rest sub

/-- Python `sub in s` for strings: substring containment. -/
def strHas (s sub : String) : Bool :=
  charsHas s.data sub.data

/-- Python equality of a value against a string literal. -/
def valEqStr (v : Val) (s : String) : Bool :=
  match v with
  | .str t => t = s
  | _ => false

/-- Python truthiness of a value (`bool(v)`). -/
def pyTruthy (v : Val) : Bool :=
  match v with
  | .str s => s ≠ ""
  | .num q => q ≠ 0
  | .bool b => b
  | .none => false
  | .list l => ¬ l.isEmpty
  | .dict l => ¬ l.isEmpty

/-- Python string interpolation of an `Optional[str]`: `None` prints as "None". -/
def optErrStr (e : Option String) : String :=
  match e with
  | Option.none => "None"
  | some s => s

/-- An `Optional[str]` stored as a dict value. -/
def optToVal (e : Option String) : Val :=
  match e with
  | Option.none => Val.none
  | some s => Val.str s

/-- `FlowResult` dataclass: `success`, `data`, optional `error`, `metadata`
(the `__post_init__` turns a missing metadata into the empty dict, so at rest
it is always a dict). -/
structure FlowResult where
  success : Bool
  data : Ctx
  error : Option String := Option.none
  metadata : Ctx := []

/-- A flow instance: its execution behaviour (`BaseFlow.execute`).  The
`name`/`config` attributes set by `BaseFlow.__init__` are captured inside the
behaviour; the engine never reads them back.  `execute` may raise. -/
structure Flow where
  execute : Ctx → Except String FlowResult

/-- A registered flow class: called as `flow_class(name, config)`; the
constructor may raise. -/
def Factory : Type := String → Option Val → Except String Flow

/-- Per-pipeline step configurations (`flow_configs`); values are passed to
the flow constructor unchecked. -/
abbrev Cfgs := List (String × Val)

/-- The mutable state of `UnifiedFlowEngine` (and, structurally identical,
of the legacy `FlowRegistry`): `_flows` maps names to classes, `_instances`
caches default-configured instances. -/
structure EState where
  flows : List (String × Factory)
  instances : List (String × Flow)

/-- Association-list lookup for the factory table. -/
def facGet? (d : List (String × Factory)) (k : String) : Option Factory :=
  match d with
  | [] => Option.none
  | (k', v) :: rest => if k' = k then some v else facGet? rest k

/-- Association-list lookup for the instance cache. -/
def instGet? (d : List (String × Flow)) (k : String) : Option Flow :=
  match d with
  | [] => Option.none
  | (k', v) :: rest => if k' = k then some v else instGet? rest k

/-- Association-list overwrite for the instance cache. -/
def instSet (d : List (String × Flow)) (k : String) (v : Flow) : List (String × Flow) :=
  match d with
  | [] => [(k, v)]
  | (k', v') :: rest => if k' = k then (k', v) :: rest else (k', v') :: instSet rest k v

/-- Association-list overwrite for the factory table. -/
def facSet (d : List (String × Factory)) (k : String) (v : Factory) : List (String × Factory) :=
  match d with
  | [] => [(k, v)]
  | (k', v') :: rest => if k' = k then (k', v) :: rest else (k', v') :: facSet rest k v

/-- `UnifiedFlowEngine.register_flow`: installs/overwrites the class for
`name`; the instance cache is left untouched. -/
def registerFlow (st : EState) (name : String) (flowClass : Factory) : EState :=
  { st with flows := facSet st.flows name flowClass }

/-- `UnifiedFlowEngine.create_flow`: `None` when unregistered; cached default
instance when present and no config was given; otherwise a fresh instance via
the class, cached only when built with no config; a raising constructor is
caught and yields `None`.  Returns the (possibly) updated engine state. -/
def createFlow (st : EState) (name : String) (cfg : Option Val) : Option Flow × EState :=
  match facGet? st.flows name with
  | Option.none => (Option.none, st)
  | some flowClass =>
    match instGet? st.instances name, cfg with
    | some inst, Option.none => (some inst, st)
    | _, _ =>
      match flowClass name cfg with
      | .error _ => (Option.none, st)
      | .ok inst =>
        (some inst,
          if cfg.isNone then { st with instances := instSet st.instances name inst } else st)

/-- One dict entry of `pipeline_results`. -/
def logEntry (flow : String) (success : Bool) (error : Option String) : Val :=
  Val.dict [("flow", Val.str flow), ("success", Val.bool success), ("error", optToVal error)]

/-- The loop of `UnifiedFlowEngine._execute_standard_pipeline`.  The second
component of the returned pair is the value of the (shared, in-place mutated)
`current_data` object at return time; in the source every return statement
passes that same object as `data`. -/
def runPipelineAux (st : EState) (names : List String) (cur : Ctx) (cfgs : Cfgs)
    (log : List Val) : FlowResult × Ctx :=
  match names with
  | [] =>
    (⟨true, cur, Option.none, [("completed_flows", Val.list log)]⟩, cur)
  | name :: rest =>
    let cfg := dictGet? cfgs name
    match createFlow st name cfg with
    | (Option.none, _) =>
      (⟨false, cur, some ("Failed to create flow: " ++ name),
        [("completed_flows", Val.list log)]⟩, cur)
    | (some fl, st') =>
      match fl.execute cur with
      | .error e =>
        let msg := "Exception in flow " ++ name ++ ": " ++ e
        (⟨false, cur, some msg,
          [("completed_flows", Val.list (log ++ [logEntry name false (some msg)]))]⟩, cur)
      | .ok r =>
        let log' := log ++ [logEntry name r.success r.error]
        if r.success then
          runPipelineAux st' rest (dictUpdate cur r.data) cfgs log'
        else
          (⟨false, cur, some ("Flow " ++ name ++ " failed: " ++ optErrStr r.error),
            [("completed_flows", Val.list log')]⟩, cur)

/-- `initial_data or {}` / `flow_configs or {}` (an absent or empty mapping
becomes a fresh empty dict). -/
def pyOrCtx (o : Option Ctx) : Ctx :=
  match o with
  | Option.none => []
  | some c => c

/-- `flow_configs or {}`. -/
def pyOrCfgs (o : Option Cfgs) : Cfgs :=
  match o with
  | Option.none => []
  | some c => c

/-- `UnifiedFlowEngine._execute_standard_pipeline`. -/
def executeStandardPipeline (st : EState) (names : List String) (initial : Option Ctx)
    (cfgs : Option Cfgs) : FlowResult :=
  if names.isEmpty then ⟨false, [], some "No flows specified", []⟩
  else (runPipelineAux st names (pyOrCtx initial) (pyOrCfgs cfgs) []).1

/-- The value of the caller-supplied `initial_data` mapping after a standard
run.  `current_data = initial_data or {}` aliases the caller's object exactly
when it is non-empty (a falsy — empty — dict is replaced by a fresh one), and
`current_data.update(...)` then mutates it in place; with an empty name list
the function returns before `current_data` is even bound. -/
def callerCtxAfter (st : EState) (names : List String) (initial : Ctx)
    (cfgs : Option Cfgs) : Ctx :=
  if names.isEmpty then initial
  else if initial.isEmpty then initial
  else (runPipelineAux st names initial (pyOrCfgs cfgs) []).2

/-- `SimpleAgent._assess_complexity`'s keyword list. -/
def complexKeywords : List String :=
  ["calculate", "analyze", "determine", "derive", "prove"]

/-- `SimpleAgent._assess_complexity(question)`: base 0.3, +0.2 for text longer
than 200, +0.3 for Quant/Logic (+0.2 for DI), +0.2 for a complexity keyword,
clamped above by 1.0.  `question.get` / `len` / `.lower()` may raise when the
question or its fields carry unexpected types. -/
def assessComplexity (question : Val) : Except String ℚ := do
  let text ← pyGetD question "question_text" (Val.str "")
  let subject ← pyGetD question "subject" (Val.str "")
  let base : ℚ := 0.3
  let n ← pyLen text
  let c1 : ℚ := if n > 200 then base + 0.2 else base
  let c2 : ℚ :=
    if valEqStr subject "Quant" || valEqStr subject "Logic" then c1 + 0.3
    else if valEqStr subject "DI" then c1 + 0.2
    else c1
  let lower ← pyLower text
  let c3 : ℚ := if complexKeywords.any (fun kw => strHas lower kw) then c2 + 0.2 else c2
  return min c3 1

/-- `SimpleAgent._recommend_strategy(complexity, subject)`: thresholds on the
score alone; the `subject` argument is accepted and ignored. -/
def recommendStrategy (complexity : ℚ) (subject : Val) : String :=
  if complexity > 0.7 then "quality"
  else if complexity < 0.4 then "performance"
  else "balanced"

/-- `SimpleAgent._optimize_pipeline(strategy, complexity)`: a fixed per-step
configuration for each strategy name; `complexity` is accepted and ignored. -/
def optimizePipeline (strategy : Val) (complexity : Val) : List (String × Val) :=
  if valEqStr strategy "quality" then
    [("reasoning_extraction", Val.dict [("depth", Val.str "enhanced"), ("search_timeout", Val.num 15)]),
     ("llm_processing", Val.dict [("temperature", Val.num 0.2), ("max_tokens", Val.num 1000)])]
  else if valEqStr strategy "performance" then
    [("reasoning_extraction", Val.dict [("depth", Val.str "basic"), ("search_timeout", Val.num 5)]),
     ("llm_processing", Val.dict [("temperature", Val.num 0.7), ("max_tokens", Val.num 500)])]
  else
    [("reasoning_extraction", Val.dict [("depth", Val.str "standard"), ("search_timeout", Val.num 10)]),
     ("llm_processing", Val.dict [("temperature", Val.num 0.5), ("max_tokens", Val.num 750)])]

/-- Rendering of an arbitrary value inside an f-string (`str(v)`).  The exact
Python rendering of containers and floats is abstracted; no claim depends on
these strings. -/
def pyStr (v : Val) : String :=
  match v with
  | .str s => s
  | .num q => toString q
  | .bool b => if b then "True" else "False"
  | .none => "None"
  | .list _ => "[...]"
  | .dict _ => "{...}"

/-- `f"{q:.0%}"`: percent rendering of a score (exact on the engine's
reachable scores, which are whole percents; rounding of other values is
abstracted). -/
def pctStr (q : ℚ) : String :=
  toString (q * 100) ++ "%"

/-- `SimpleAgent.analyze_content(data)`: builds the analysis dict; raises
whatever `_assess_complexity` raises. -/
def analyzeContent (data : Ctx) : Except String Val := do
  let question := dictGetD data "question" (Val.dict [])
  let subject ← pyGetD question "subject" (Val.str "Unknown")
  let complexity ← assessComplexity question
  let strategy := recommendStrategy complexity subject
  return Val.dict
    [("complexity_score", Val.num complexity),
     ("recommended_strategy", Val.str strategy),
     ("confidence", Val.num 0.85),
     ("insights", Val.str ("Analyzed " ++ pyStr subject ++ " question with "
        ++ pctStr complexity ++ " complexity"))]

/-- Python `45 + complexity * 30` on a stored value: raises unless numeric. -/
def estTime (complexity : Val) : Except String ℚ :=
  match complexity with
  | .num q => .ok (45 + q * 30)
  | _ => .error "TypeError: unsupported operand"

/-- `SimpleAgent.plan_strategy(analysis, data)`: builds the plan dict. -/
def planStrategy (analysis : Val) (data : Ctx) : Except String Val := do
  let strategy ← pyGetD analysis "recommended_strategy" (Val.str "balanced")
  let complexity ← pyGetD analysis "complexity_score" (Val.num 0.5)
  let pipelineConfig := optimizePipeline strategy complexity
  let et ← estTime complexity
  return Val.dict
    [("strategy", strategy),
     ("pipeline_config", Val.dict pipelineConfig),
     ("confidence", Val.num 0.90),
     ("estimated_time", Val.num et)]

/-- The dict returned by `SimpleAgent.execute_pipeline` (fixed keys). -/
structure AgentExec where
  execution_result : FlowResult
  execution_time : ℚ
  strategy_used : Val
  success : Bool
  confidence : ℚ
  error : Option String := Option.none

/-- `SimpleAgent.execute_pipeline(strategy, flows, data, engine)`.  The two
`.get` calls sit before the `try`, so they propagate; inside the `try` the
only fault the model can raise is `flow_configs.get` on a truthy non-dict
`pipeline_config` (the engine call itself is total), which the `except`
branch converts into a failing result with confidence 0.  `elapsed` stands
for the measured wall-clock duration. -/
def agentExecutePipeline (st : EState) (strategy : Val) (flows : List String)
    (data : Ctx) (elapsed : ℚ) : Except String AgentExec := do
  let strategyName ← pyGetD strategy "strategy" (Val.str "standard")
  let pipelineConfig ← pyGetD strategy "pipeline_config" (Val.dict [])
  match pipelineConfig with
  | .dict cfgs =>
    let result := executeStandardPipeline st flows (some data) (some cfgs)
    return { execution_result := result, execution_time := elapsed,
             strategy_used := strategyName, success := result.success,
             confidence := if result.success then 0.88 else 0.3 }
  | other =>
    if pyTruthy other then
      return { execution_result := ⟨false, data, some "AttributeError: object has no attribute get", []⟩,
               execution_time := elapsed, strategy_used := strategyName, success := false,
               confidence := 0, error := some "AttributeError: object has no attribute get" }
    else
      let result := executeStandardPipeline st flows (some data) (some [])
      return { execution_result := result, execution_time := elapsed,
               strategy_used := strategyName, success := result.success,
               confidence := if result.success then 0.88 else 0.3 }

/-- `UnifiedFlowEngine._execute_agentic_pipeline`: phases analyze / plan /
execute inside one `try`; on success the inner result's metadata is augmented
in place; any phase fault becomes a failing result tagged `agentic_mode`. -/
def executeAgenticPipeline (st : EState) (names : List String) (initial : Option Ctx)
    (cfgs : Option Cfgs) (sessionId : String) (elapsed : ℚ) : FlowResult :=
  let current := pyOrCtx initial
  match (do
    let analysis ← analyzeContent current
    let strategy ← planStrategy analysis current
    let execRec ← agentExecutePipeline st strategy names current elapsed
    let finalResult := execRec.execution_result
    let md := dictUpdate finalResult.metadata
      [("session_id", Val.str sessionId),
       ("agent_analysis", analysis),
       ("strategy_used", strategy),
       ("execution_time", Val.num execRec.execution_time),
       ("confidence", Val.num execRec.confidence),
       ("agentic_mode", Val.bool true)]
    pure { finalResult with metadata := md } : Except String FlowResult) with
  | .ok r => r
  | .error e =>
    ⟨false, current, some ("Agentic pipeline error: " ++ e),
     [("session_id", Val.str sessionId), ("agentic_mode", Val.bool true)]⟩

/-- `UnifiedFlowEngine.execute_pipeline`: the engine's entry point; dispatches
on the `agentic` flag.  (`cfgs` is accepted by the agentic branch in the
source and never used there.) -/
def executePipeline (st : EState) (names : List String) (initial : Option Ctx)
    (cfgs : Option Cfgs) (agentic : Bool) (sessionId : String) (elapsed : ℚ) : FlowResult :=
  if agentic then executeAgenticPipeline st names initial cfgs sessionId elapsed
  else executeStandardPipeline st names initial cfgs

/-- `FlowRegistry.create_flow` of the legacy engine (`flow_engine.py`):
line-for-line the same logic as `UnifiedFlowEngine.create_flow` (the legacy
version additionally prints debug lines, a pure side effect). -/
def legacyCreateFlow (st : EState) (name : String) (cfg : Option Val) : Option Flow × EState :=
  match facGet? st.flows name with
  | Option.none => (Option.none, st)
  | some flowClass =>
    match instGet? st.instances name, cfg with
    | some inst, Option.none => (some inst, st)
    | _, _ =>
      match flowClass name cfg with
      | .error _ => (Option.none, st)
      | .ok inst =>
        (some inst,
          if cfg.isNone then { st with instances := instSet st.instances name inst } else st)

/-- The loop of the legacy `FlowEngine.execute_pipeline`. -/
def legacyRunPipeline (st : EState) (names : List String) (cur : Ctx) (cfgs : Cfgs)
    (log : List Val) : FlowResult :=
  match names with
  | [] =>
    ⟨true, cur, Option.none, [("completed_flows", Val.list log)]⟩
  | name :: rest =>
    let cfg := dictGet? cfgs name
    match legacyCreateFlow st name cfg with
    | (Option.none, _) =>
      ⟨false, cur, some ("Failed to create flow: " ++ name),
        [("completed_flows", Val.list log)]⟩
    | (some fl, st') =>
      match fl.execute cur with
      | .error e =>
        let msg := "Exception in flow " ++ name ++ ": " ++ e
        ⟨false, cur, some msg,
          [("completed_flows", Val.list (log ++ [logEntry name false (some msg)]))]⟩
      | .ok r =>
        let log' := log ++ [logEntry name r.success r.error]
        if r.success then
          legacyRunPipeline st' rest (dictUpdate cur r.data) cfgs log'
        else
          ⟨false, cur, some ("Flow " ++ name ++ " failed: " ++ optErrStr r.error),
            [("completed_flows", Val.list log')]⟩

/-- The legacy `FlowEngine.execute_pipeline` (`flow_engine.py`, lines
109-178); the engine's unused `execution_log` attribute is not modelled. -/
def legacyExecutePipeline (st : EState) (names : List String) (initial : Option Ctx)
    (cfgs : Option Cfgs) : FlowResult :=
  if names.isEmpty then ⟨false, [], some "No flows specified", []⟩
  else legacyRunPipeline st names (pyOrCtx initial) (pyOrCfgs cfgs) []

/-- The list of `data` dicts returned by the successfully merged steps of a
standard run, in invocation order (an observer of `runPipelineAux`; it stops
where the run stops merging). -/
def stepDatas (st : EState) (names : List String) (cur : Ctx) (cfgs : Cfgs) : List Ctx :=
  match names with
  | [] => []
  | name :: rest =>
    match createFlow st name (dictGet? cfgs name) with
    | (Option.none, _) => []
    | (some fl, st') =>
      match fl.execute cur with
      | .error _ => []
      | .ok r =>
        if r.success then r.data :: stepDatas st' rest (dictUpdate cur r.data) cfgs
        else []

/-- A dict (as produced by Python) has no duplicate keys. -/
def NodupKeys (d : Ctx) : Prop :=
  (d.map Prod.fst).Nodup

/-- The "union with last-write-wins" of an initial dict and a list of update
dicts, read at one key: the value from the last update dict containing the
key, else the initial dict's value. -/
def unionLastWins (init : Ctx) (ds : List Ctx) (k : String) : Option Val :=
  match ds.reverse.find? (fun d => (dictGet? d k).isSome) with
  | some d => dictGet? d k
  | Option.none => dictGet? init k

/-- Every listed name resolves (at the given engine state) to a flow whose
execution always returns a successful result. -/
def AllSucc (st : EState) (names : List String) : Prop :=
  ∀ n ∈ names, ∀ cfg, ∃ fl, (createFlow st n cfg).1 = some fl ∧
    ∀ ctx, ∃ r, fl.execute ctx = .ok r ∧ r.success = true

/-- Every result any listed step can return carries duplicate-free keys
(true of every Python dict). -/
def AllNodup (st : EState) (names : List String) : Prop :=
  ∀ n ∈ names, ∀ cfg fl, (createFlow st n cfg).1 = some fl →
    ∀ ctx r, fl.execute ctx = .ok r → NodupKeys r.data

theorem dictGet?_dictSet (d : Ctx) (k' k : String) (v : Val) :
    dictGet? (dictSet d k' v) k = if k' = k then some v else dictGet? d k := by
  induction d with
  | nil => simp [dictSet, dictGet?]
  | cons p rest ih =>
    obtain ⟨k₀, v₀⟩ := p
    by_cases h0 : k₀ = k'
    · subst h0
      by_cases h1 : k₀ = k <;> simp [dictSet, dictGet?, h1]
    · by_cases h1 : k₀ = k
      · subst h1
        simp [dictSet, dictGet?, h0, Ne.symm h0]
      · simp [dictSet, dictGet?, h0, h1, ih]

theorem dictGet?_eq_none_of_not_mem (e : Ctx) (k : String)
    (h : k ∉ e.map Prod.fst) : dictGet? e k = Option.none := by
  induction e with
  | nil => simp [dictGet?]
  | cons q qs ihq =>
    obtain ⟨kq, vq⟩ := q
    simp only [List.map_cons, List.mem_cons] at h
    push_neg at h
    simp [dictGet?, Ne.symm h.1, ihq h.2]

theorem dictGet?_dictUpdate (e : Ctx) (hn : NodupKeys e) (d : Ctx) (k : String) :
    dictGet? (dictUpdate d e) k =
      if (dictGet? e k).isSome then dictGet? e k else dictGet? d k := by
  induction e generalizing d with
  | nil => simp [dictUpdate, dictGet?]
  | cons p rest ih =>
    obtain ⟨k₀, v₀⟩ := p
    have hn' : NodupKeys rest := (List.nodup_cons.mp hn).2
    have hk₀ : k₀ ∉ rest.map Prod.fst := (List.nodup_cons.mp hn).1
    have hstep : dictUpdate d ((k₀, v₀) :: rest) = dictUpdate (dictSet d k₀ v₀) rest := by
      simp [dictUpdate]
    rw [hstep, ih hn']
    by_cases h : k₀ = k
    · subst h
      have hrest : dictGet? rest k₀ = Option.none :=
        dictGet?_eq_none_of_not_mem rest k₀ hk₀
      simp [dictGet?, hrest, dictGet?_dictSet]
    · by_cases h2 : (dictGet? rest k).isSome
      · simp [dictGet?, h, h2]
      · simp [dictGet?, h, h2, dictGet?_dictSet]

theorem dictGet?_foldl_update (ds : List Ctx) (hn : ∀ d ∈ ds, NodupKeys d)
    (init : Ctx) (k : String) :
    dictGet? (List.foldl dictUpdate init ds) k = unionLastWins init ds k := by
  induction ds generalizing init with
  | nil => simp [unionLastWins]
  | cons d rest ih =>
    have hd : NodupKeys d := hn d (by simp)
    have hrest : ∀ x ∈ rest, NodupKeys x := fun x hx => hn x (by simp [hx])
    rw [List.foldl_cons, ih hrest]
    unfold unionLastWins
    rw [List.reverse_cons, List.find?_append]
    cases hfind : rest.reverse.find? (fun e => (dictGet? e k).isSome) with
    | some e => simp [hfind]
    | none =>
      simp only [hfind, Option.none_orElse]
      by_cases h : (dictGet? d k).isSome
      · simp [List.find?, h, dictGet?_dictUpdate d hd]
      · simp [List.find?, h, dictGet?_dictUpdate d hd]

theorem instGet?_instSet (d : List (String × Flow)) (k' k : String) (v : Flow) :
    instGet? (instSet d k' v) k = if k' = k then some v else instGet? d k := by
  induction d with
  | nil => simp [instSet, instGet?]
  | cons p rest ih =>
    obtain ⟨k₀, v₀⟩ := p
    by_cases h0 : k₀ = k'
    · subst h0
      by_cases h1 : k₀ = k <;> simp [instSet, instGet?, h1]
    · by_cases h1 : k₀ = k
      · subst h1
        simp [instSet, instGet?, h0, Ne.symm h0]
      · simp [instSet, instGet?, h0, h1, ih]

theorem createFlow_cache_agree (st : EState) (n : String) (inst : Flow) (fac : Factory)
    (hf : facGet? st.flows n = some fac) (hi : instGet? st.instances n = Option.none)
    (ho : fac n Option.none = .ok inst) (m : String) (c : Option Val) :
    (createFlow { st with instances := instSet st.instances n inst } m c).1 =
      (createFlow st m c).1 := by
  unfold createFlow
  by_cases hmn : n = m
  · subst hmn
    rw [hf]
    have hL : instGet? (instSet st.instances n inst) n = some inst := by
      rw [instGet?_instSet]; simp
    rw [hL, hi]
    cases c with
    | none => simp [ho]
    | some x => cases hox : fac n (some x) with
      | error e => simp [hox]
      | ok i2 => simp [hox]
  · have hL : instGet? (instSet st.instances n inst) m = instGet? st.instances m := by
      rw [instGet?_instSet]; simp [hmn]
    have hflows : ({ st with instances := instSet st.instances n inst } : EState).flows
        = st.flows := rfl
    rw [hflows, hL]
    cases hfm : facGet? st.flows m with
    | none => simp [hfm]
    | some facm =>
      cases him : instGet? st.instances m with
      | some instm =>
        cases c with
        | none => simp [hfm, him]
        | some x =>
          cases hom : facm m (some x) with
          | error e => simp [hfm, him, hom]
          | ok i2 => simp [hfm, him, hom]
      | none =>
        cases c with
        | none =>
          cases hom : facm m Option.none with
          | error e => simp [hfm, him, hom]
          | ok i2 => simp [hfm, him, hom]
        | some x =>
          cases hom : facm m (some x) with
          | error e => simp [hfm, him, hom]
          | ok i2 => simp [hfm, him, hom]

theorem createFlow_snd_cases (st : EState) (n : String) (cfg : Option Val) :
    (createFlow st n cfg).2 = st ∨
    ∃ fac inst, facGet? st.flows n = some fac ∧ instGet? st.instances n = Option.none ∧
      cfg = Option.none ∧ fac n Option.none = Except.ok inst ∧
      (createFlow st n cfg).2 = { st with instances := instSet st.instances n inst } := by
  unfold createFlow
  cases hf : facGet? st.flows n with
  | none => left; rfl
  | some fac =>
    cases hi : instGet? st.instances n with
    | some inst =>
      cases cfg with
      | none => left; rfl
      | some x =>
        cases ho : fac n (some x) with
        | error e => left; simp [ho]
        | ok inst' => left; simp [ho]
    | none =>
      cases cfg with
      | some x =>
        cases ho : fac n (some x) with
        | error e => left; simp [ho]
        | ok inst' => left; simp [ho]
      | none =>
        cases ho : fac n Option.none with
        | error e => left; simp [ho]
        | ok inst' =>
          right
          exact ⟨fac, inst', rfl, rfl, rfl, ho, by simp [ho]⟩

theorem createFlow_fst_stable (st : EState) (n : String) (cfg : Option Val)
    (m : String) (c : Option Val) :
    (createFlow (createFlow st n cfg).2 m c).1 = (createFlow st m c).1 := by
  rcases createFlow_snd_cases st n cfg with h | ⟨fac, inst, hf, hi, _, ho, h⟩
  · rw [h]
  · rw [h]
    exact createFlow_cache_agree st n inst fac hf hi ho m c

theorem allSucc_stable (st : EState) (n : String) (cfg : Option Val) (names : List String)
    (h : AllSucc st names) : AllSucc (createFlow st n cfg).2 names := by
  intro m hm c
  obtain ⟨fl, h1, h2⟩ := h m hm c
  exact ⟨fl, (createFlow_fst_stable st n cfg m c).trans h1, h2⟩

theorem allNodup_stable (st : EState) (n : String) (cfg : Option Val) (names : List String)
    (h : AllNodup st names) : AllNodup (createFlow st n cfg).2 names := by
  intro m hm c fl hfl ctx r hr
  exact h m hm c fl ((createFlow_fst_stable st n cfg m c).symm.trans hfl) ctx r hr

theorem runPipelineAux_append (pre : List String) :
    ∀ st cur cfgs, AllSucc st pre →
    ∃ st' cur' entries,
      (∀ m c, (createFlow st' m c).1 = (createFlow st m c).1) ∧
      entries.length = pre.length ∧
      cur' = List.foldl dictUpdate cur (stepDatas st pre cur cfgs) ∧
      ∀ rest log, runPipelineAux st (pre ++ rest) cur cfgs log =
        runPipelineAux st' rest cur' cfgs (log ++ entries) := by
  induction pre with
  | nil =>
    intro st cur cfgs _
    exact ⟨st, cur, [], fun m c => rfl, rfl, by simp [stepDatas], fun rest log => by simp⟩
  | cons n pre' ih =>
    intro st cur cfgs hs
    obtain ⟨fl, hfl, hexec⟩ := hs n (by simp) (dictGet? cfgs n)
    obtain ⟨r, hr, hrs⟩ := hexec cur
    rcases hc : createFlow st n (dictGet? cfgs n) with ⟨o, st₂⟩
    rw [hc] at hfl
    simp only at hfl
    subst hfl
    have hstab : ∀ m c, (createFlow st₂ m c).1 = (createFlow st m c).1 := by
      intro m c
      have h := createFlow_fst_stable st n (dictGet? cfgs n) m c
      rw [hc] at h
      exact h
    have hs₂ : AllSucc st₂ pre' := by
      intro m hm c
      obtain ⟨fl', h1, h2⟩ := hs m (by simp [hm]) c
      exact ⟨fl', (hstab m c).trans h1, h2⟩
    obtain ⟨st', cur', entries, hagree, hlen, hcur, heq⟩ :=
      ih st₂ (dictUpdate cur r.data) cfgs hs₂
    refine ⟨st', cur', logEntry n r.success r.error :: entries, ?_, ?_, ?_, ?_⟩
    · intro m c
      exact (hagree m c).trans (hstab m c)
    · simp [hlen]
    · rw [hcur]
      have hsd : stepDatas st (n :: pre') cur cfgs =
          r.data :: stepDatas st₂ pre' (dictUpdate cur r.data) cfgs := by
        conv_lhs => rw [stepDatas.eq_def]
        simp [hc, hr, hrs]
      rw [hsd, List.foldl_cons]
    · intro rest log
      have hstep : runPipelineAux st ((n :: pre') ++ rest) cur cfgs log =
          runPipelineAux st₂ (pre' ++ rest)
            (dictUpdate cur r.data) cfgs (log ++ [logEntry n r.success r.error]) := by
        rw [List.cons_append]
        conv_lhs => rw [runPipelineAux.eq_def]
        simp [hc, hr, hrs]
      rw [hstep, heq rest (log ++ [logEntry n r.success r.error])]
      simp

theorem append_length_pos (s t : String) (h : 0 < s.length) : 0 < (s ++ t).length := by
  rw [String.length_append]
  omega

theorem runPipelineAux_snd (names : List String) :
    ∀ st cur cfgs log, (runPipelineAux st names cur cfgs log).2 =
      (runPipelineAux st names cur cfgs log).1.data := by
  induction names with
  | nil => intro st cur cfgs log; rfl
  | cons n rest ih =>
    intro st cur cfgs log
    rw [runPipelineAux.eq_def]
    rcases hc : createFlow st n (dictGet? cfgs n) with ⟨o, st₂⟩
    cases o with
    | none => simp [hc]
    | some fl =>
      cases he : fl.execute cur with
      | error e => simp [hc, he]
      | ok r =>
        by_cases hrs : r.success = true
        · simp [hc, he, hrs, ih]
        · simp [hc, he, hrs]

theorem runPipelineAux_fail_error (names : List String) :
    ∀ st cur cfgs log, (runPipelineAux st names cur cfgs log).1.success = false →
      ∃ e, (runPipelineAux st names cur cfgs log).1.error = some e ∧ 0 < e.length := by
  induction names with
  | nil =>
    intro st cur cfgs log h
    simp [runPipelineAux] at h
  | cons n rest ih =>
    intro st cur cfgs log h
    rw [runPipelineAux.eq_def] at h ⊢
    rcases hc : createFlow st n (dictGet? cfgs n) with ⟨o, st₂⟩
    simp only [hc] at h ⊢
    cases o with
    | none =>
      exact ⟨_, rfl, append_length_pos "Failed to create flow: " n (by decide)⟩
    | some fl =>
      cases he : fl.execute cur with
      | error e =>
        simp only [he] at h ⊢
        refine ⟨_, rfl, ?_⟩
        exact append_length_pos _ e
          (append_length_pos _ _ (append_length_pos "Exception in flow " n (by decide)))
      | ok r =>
        simp only [he] at h ⊢
        by_cases hrs : r.success = true
        · simp only [hrs, if_true] at h ⊢
          exact ih st₂ (dictUpdate cur r.data) cfgs _ h
        · simp only [hrs, if_false] at h ⊢
          refine ⟨_, rfl, ?_⟩
          exact append_length_pos _ _
            (append_length_pos _ _ (append_length_pos "Flow " n (by decide)))

theorem legacyCreateFlow_eq (st : EState) (n : String) (c : Option Val) :
    legacyCreateFlow st n c = createFlow st n c := rfl

theorem legacyRunPipeline_eq (names : List String) :
    ∀ st cur cfgs log, legacyRunPipeline st names cur cfgs log =
      (runPipelineAux st names cur cfgs log).1 := by
  induction names with
  | nil => intro st cur cfgs log; rfl
  | cons n rest ih =>
    intro st cur cfgs log
    rw [legacyRunPipeline.eq_def, runPipelineAux.eq_def]
    rcases hc : createFlow st n (dictGet? cfgs n) with ⟨o, st₂⟩
    have hcl : legacyCreateFlow st n (dictGet? cfgs n) = (o, st₂) := by
      rw [legacyCreateFlow_eq, hc]
    cases o with
    | none => simp [hc, hcl]
    | some fl =>
      cases he : fl.execute cur with
      | error e => simp [hc, hcl, he]
      | ok r =>
        by_cases hrs : r.success = true
        · simp [hc, hcl, he, hrs, ih]
        · simp [hc, hcl, he, hrs]

theorem executeStandard_fail_error (st : EState) (names : List String) (initial : Option Ctx)
    (cfgs : Option Cfgs) (h : (executeStandardPipeline st names initial cfgs).success = false) :
    ∃ e, (executeStandardPipeline st names initial cfgs).error = some e ∧ 0 < e.length := by
  unfold executeStandardPipeline at h ⊢
  by_cases hne : names.isEmpty
  · simp only [hne, if_true]
    exact ⟨"No flows specified", rfl, by decide⟩
  · simp only [hne, if_false] at h ⊢
    exact runPipelineAux_fail_error names st (pyOrCtx initial) (pyOrCfgs cfgs) [] h

theorem agentExec_fail_error (st : EState) (strategy : Val) (names : List String)
    (data : Ctx) (elapsed : ℚ) (execRec : AgentExec)
    (hx : agentExecutePipeline st strategy names data elapsed = Except.ok execRec)
    (h : execRec.execution_result.success = false) :
    ∃ e, execRec.execution_result.error = some e ∧ 0 < e.length := by
  unfold agentExecutePipeline at hx
  cases h1 : pyGetD strategy "strategy" (Val.str "standard") with
  | error e => rw [h1] at hx; exact absurd hx (by simp [Bind.bind, Except.bind])
  | ok sn =>
    rw [h1] at hx
    cases h2 : pyGetD strategy "pipeline_config" (Val.dict []) with
    | error e => rw [h2] at hx; exact absurd hx (by simp [Bind.bind, Except.bind])
    | ok pc =>
      rw [h2] at hx
      cases pc with
      | dict cfgs2 =>
        simp only [Bind.bind, Except.bind, pure, Except.pure] at hx
        cases hx
        exact executeStandard_fail_error st names (some data) (some cfgs2) h
      | str s =>
        simp only [Bind.bind, Except.bind, pure, Except.pure] at hx
        by_cases ht : pyTruthy (Val.str s)
        · simp only [ht, if_true] at hx
          cases hx
          exact ⟨_, rfl, by decide⟩
        · simp only [ht, if_false] at hx
          cases hx
          exact executeStandard_fail_error st names (some data) (some []) h
      | num q =>
        simp only [Bind.bind, Except.bind, pure, Except.pure] at hx
        by_cases ht : pyTruthy (Val.num q)
        · simp only [ht, if_true] at hx
          cases hx
          exact ⟨_, rfl, by decide⟩
        · simp only [ht, if_false] at hx
          cases hx
          exact executeStandard_fail_error st names (some data) (some []) h
      | bool b =>
        simp only [Bind.bind, Except.bind, pure, Except.pure] at hx
        by_cases ht : pyTruthy (Val.bool b)
        · simp only [ht, if_true] at hx
          cases hx
          exact ⟨_, rfl, by decide⟩
        · simp only [ht, if_false] at hx
          cases hx
          exact executeStandard_fail_error st names (some data) (some []) h
      | none =>
        simp only [Bind.bind, Except.bind, pure, Except.pure] at hx
        by_cases ht : pyTruthy Val.none
        · simp only [ht, if_true] at hx
          cases hx
          exact ⟨_, rfl, by decide⟩
        · simp only [ht, if_false] at hx
          cases hx
          exact executeStandard_fail_error st names (some data) (some []) h
      | list l =>
        simp only [Bind.bind, Except.bind, pure, Except.pure] at hx
        by_cases ht : pyTruthy (Val.list l)
        · simp only [ht, if_true] at hx
          cases hx
          exact ⟨_, rfl, by decide⟩
        · simp only [ht, if_false] at hx
          cases hx
          exact executeStandard_fail_error st names (some data) (some []) h

theorem executeAgentic_fail_error (st : EState) (names : List String) (initial : Option Ctx)
    (cfgs : Option Cfgs) (sessionId : String) (elapsed : ℚ)
    (h : (executeAgenticPipeline st names initial cfgs sessionId elapsed).success = false) :
    ∃ e, (executeAgenticPipeline st names initial cfgs sessionId elapsed).error = some e ∧
      0 < e.length := by
  unfold executeAgenticPipeline at h ⊢
  cases ha : analyzeContent (pyOrCtx initial) with
  | error e =>
    simp only [ha, Bind.bind, Except.bind]
    exact ⟨_, rfl, append_length_pos "Agentic pipeline error: " e (by decide)⟩
  | ok analysis =>
    simp only [ha, Bind.bind, Except.bind] at h ⊢
    cases hp : planStrategy analysis (pyOrCtx initial) with
    | error e =>
      simp only [hp, Bind.bind, Except.bind]
      exact ⟨_, rfl, append_length_pos "Agentic pipeline error: " e (by decide)⟩
    | ok strategy =>
      simp only [hp, Bind.bind, Except.bind] at h ⊢
      cases hx : agentExecutePipeline st strategy names (pyOrCtx initial) elapsed with
      | error e =>
        simp only [hx, Bind.bind, Except.bind]
        exact ⟨_, rfl, append_length_pos "Agentic pipeline error: " e (by decide)⟩
      | ok execRec =>
        simp only [hx, Bind.bind, Except.bind, pure, Except.pure] at h ⊢
        exact agentExec_fail_error st strategy names (pyOrCtx initial) elapsed execRec hx h

/-- Claim C6: for every input — any step-name sequence, initial context,
per-step config, `agentic` flag and any behaviour of the registered flow
classes and flows (faults included; a malformed returned object faults at
first field access inside the same `try`) — the engine entry point
`execute_pipeline` returns a `FlowResult` (the model's functions are total,
mirroring that every fallible call in the source sits inside a fault
barrier), and whenever that result is failing its `error` is a non-empty
string. -/
theorem C6_no_uncaught_fault_and_nonempty_error (st : EState) (names : List String)
    (initial : Option Ctx) (cfgs : Option Cfgs) (agentic : Bool) (sessionId : String)
    (elapsed : ℚ)
    (h : (executePipeline st names initial cfgs agentic sessionId elapsed).success = false) :
    ∃ e, (executePipeline st names initial cfgs agentic sessionId elapsed).error = some e ∧
      0 < e.length := by
  unfold executePipeline at h ⊢
  cases agentic with
  | true =>
    rw [if_pos rfl] at h ⊢
    exact executeAgentic_fail_error st names initial cfgs sessionId elapsed h
  | false =>
    rw [if_neg Bool.false_ne_true] at h ⊢
    exact executeStandard_fail_error st names initial cfgs h

/-- The empty engine state (no registered flows, no cached instances). -/
def stEmpty : EState := ⟨[], []⟩

/-- Witness for C6: a concrete failing run (unregistered step name) reports a
non-empty error. -/
theorem C6_witness :
    ∃ e, (executePipeline stEmpty ["x"] Option.none Option.none false "" 0).error = some e ∧
      0 < e.length :=
  C6_no_uncaught_fault_and_nonempty_error stEmpty ["x"] Option.none Option.none false "" 0 rfl

/-- Claim C8: strategy selection is a pure function of the complexity score
(the `subject` argument is ignored), with thresholds score > 0.7 → quality,
score < 0.4 → performance, otherwise balanced; in particular 0.9 → quality,
0.35 → performance, 0.55 → balanced. -/
theorem C8_strategy_selection :
    (∀ (c : ℚ) (s t : Val), recommendStrategy c s = recommendStrategy c t) ∧
    (∀ (c : ℚ) (s : Val), 0.7 < c → recommendStrategy c s = "quality") ∧
    (∀ (c : ℚ) (s : Val), c < 0.4 → recommendStrategy c s = "performance") ∧
    (∀ (c : ℚ) (s : Val), 0.4 ≤ c → c ≤ 0.7 → recommendStrategy c s = "balanced") ∧
    (∀ s : Val, recommendStrategy 0.9 s = "quality" ∧
      recommendStrategy 0.35 s = "performance" ∧ recommendStrategy 0.55 s = "balanced") := by
  refine ⟨fun c s t => rfl, ?_, ?_, ?_, ?_⟩
  · intro c s h
    simp [recommendStrategy, h]
  · intro c s h
    have h2 : ¬ (0.7 : ℚ) < c := by linarith
    simp [recommendStrategy, h, h2]
  · intro c s h1 h2
    have h3 : ¬ (0.7 : ℚ) < c := not_lt.mpr h2
    have h4 : ¬ c < (0.4 : ℚ) := not_lt.mpr h1
    simp [recommendStrategy, h3, h4]
  · intro s
    refine ⟨?_, ?_, ?_⟩ <;> norm_num [recommendStrategy]

/-- Witness for C8: the thresholds applied at concrete scores. -/
theorem C8_witness :
    recommendStrategy 0.8 Val.none = "quality" ∧
    recommendStrategy 0.3 Val.none = "performance" ∧
    recommendStrategy 0.5 Val.none = "balanced" :=
  ⟨C8_strategy_selection.2.1 0.8 Val.none (by norm_num),
   C8_strategy_selection.2.2.1 0.3 Val.none (by norm_num),
   C8_strategy_selection.2.2.2.1 0.5 Val.none (by norm_num) (by norm_num)⟩

/-- Claim C10: the legacy executor `FlowEngine.execute_pipeline` and the
unified executor `UnifiedFlowEngine._execute_standard_pipeline` are
behaviourally equivalent: started from the same registry contents (factory
table and instance cache) and given the same step names, initial context and
per-step configs, they return equal `FlowResult`s (same success flag, data,
error and completed-flows metadata). -/
theorem C10_legacy_unified_equiv (st : EState) (names : List String)
    (initial : Option Ctx) (cfgs : Option Cfgs) :
    legacyExecutePipeline st names initial cfgs = executeStandardPipeline st names initial cfgs := by
  unfold legacyExecutePipeline executeStandardPipeline
  by_cases h : names.isEmpty
  · simp only [h, if_true]
  · simp only [h, if_false]
    exact legacyRunPipeline_eq names st (pyOrCtx initial) (pyOrCfgs cfgs) []

theorem stepDatas_nodup (names : List String) :
    ∀ st cur cfgs, AllNodup st names → ∀ d ∈ stepDatas st names cur cfgs, NodupKeys d := by
  induction names with
  | nil =>
    intro st cur cfgs _ d hd
    simp [stepDatas] at hd
  | cons n rest ih =>
    intro st cur cfgs hnd d hd
    rw [stepDatas.eq_def] at hd
    rcases hc : createFlow st n (dictGet? cfgs n) with ⟨o, st₂⟩
    simp only [hc] at hd
    cases o with
    | none => simp at hd
    | some fl =>
      cases he : fl.execute cur with
      | error e => simp [he] at hd
      | ok r =>
        simp only [he] at hd
        by_cases hrs : r.success = true
        · simp only [hrs, if_true] at hd
          rcases List.mem_cons.1 hd with hcase | hcase
          · subst hcase
            exact hnd n (by simp) (dictGet? cfgs n) fl (by rw [hc]) cur r he
          · have hstab : ∀ m c, (createFlow st₂ m c).1 = (createFlow st m c).1 := by
              intro m c
              have hst := createFlow_fst_stable st n (dictGet? cfgs n) m c
              rw [hc] at hst
              exact hst
            have hnd₂ : AllNodup st₂ rest := by
              intro m hm c fl' hfl' ctx r' hr'
              exact hnd m (by simp [hm]) c fl' ((hstab m c).symm.trans hfl') ctx r' hr'
            exact ih st₂ (dictUpdate cur r.data) cfgs hnd₂ d hcase
        · simp [hrs] at hd

/-- Claim C1: for every non-empty sequence of step names whose every
resolution yields a flow that always returns a successful result (with the
Python-dict guarantee that each returned `data` has duplicate-free keys), the
standard pipeline returns a successful result whose `data` is the fold of
`dict.update` merges of every step's returned data over the initial context;
read at any key, that is exactly the union of the initial context and the
steps' outputs with the later step winning on collision. -/
theorem C1_all_success (st : EState) (names : List String) (initial : Option Ctx)
    (cfgs : Option Cfgs) (hne : names ≠ [])
    (hs : AllSucc st names) (hnd : AllNodup st names) :
    (executeStandardPipeline st names initial cfgs).success = true ∧
    (executeStandardPipeline st names initial cfgs).data =
      List.foldl dictUpdate (pyOrCtx initial)
        (stepDatas st names (pyOrCtx initial) (pyOrCfgs cfgs)) ∧
    ∀ k, dictGet? (executeStandardPipeline st names initial cfgs).data k =
      unionLastWins (pyOrCtx initial)
        (stepDatas st names (pyOrCtx initial) (pyOrCfgs cfgs)) k := by
  have hne' : names.isEmpty = false := by
    cases names with
    | nil => exact absurd rfl hne
    | cons a l => rfl
  unfold executeStandardPipeline
  rw [hne']
  simp only [Bool.false_eq_true, if_false]
  obtain ⟨st', cur', entries, _, _, hcur, heq⟩ :=
    runPipelineAux_append names st (pyOrCtx initial) (pyOrCfgs cfgs) hs
  have hrun := heq [] []
  rw [List.append_nil] at hrun
  rw [hrun]
  refine ⟨rfl, ?_, ?_⟩
  · simpa [runPipelineAux] using hcur
  · intro k
    have hdata : (runPipelineAux st' [] cur' (pyOrCfgs cfgs) ([] ++ entries)).1.data = cur' := rfl
    rw [hdata, hcur]
    exact dictGet?_foldl_update _ (stepDatas_nodup names st (pyOrCtx initial) (pyOrCfgs cfgs) hnd)
      (pyOrCtx initial) k

/-- A flow used by concrete witnesses: always succeeds, returning one key. -/
def flowW1 : Flow := ⟨fun _ => Except.ok ⟨true, [("x", Val.num 1)], Option.none, []⟩⟩

/-- Factory producing `flowW1`. -/
def facW1 : Factory := fun _ _ => Except.ok flowW1

/-- Engine state registering only "s" with `facW1`. -/
def stW1 : EState := ⟨[("s", facW1)], []⟩

theorem stW1_allSucc : AllSucc stW1 ["s"] := by
  intro n hn cfg
  simp only [List.mem_singleton] at hn
  subst hn
  exact ⟨flowW1, rfl, fun ctx => ⟨_, rfl, rfl⟩⟩

theorem stW1_allNodup : AllNodup stW1 ["s"] := by
  intro n hn cfg fl hfl ctx r hr
  simp only [List.mem_singleton] at hn
  subst hn
  have h1 : (some flowW1 : Option Flow) = some fl :=
    (show (createFlow stW1 "s" cfg).1 = some flowW1 from rfl).symm.trans hfl
  injection h1 with h1
  subst h1
  have h2 : (Except.ok (⟨true, [("x", Val.num 1)], Option.none, []⟩ : FlowResult) :
      Except String FlowResult) = Except.ok r :=
    (show flowW1.execute ctx = _ from rfl).symm.trans hr
  injection h2 with h2
  subst h2
  constructor <;> simp

/-- Witness for C1: the concrete one-step all-success run is successful and
its data reads as the last-wins union. -/
theorem C1_witness :
    (executeStandardPipeline stW1 ["s"] (some [("a", Val.num 0)]) Option.none).success = true ∧
    dictGet? (executeStandardPipeline stW1 ["s"] (some [("a", Val.num 0)]) Option.none).data "x" =
      unionLastWins [("a", Val.num 0)]
        (stepDatas stW1 ["s"] [("a", Val.num 0)] []) "x" := by
  have h := C1_all_success stW1 ["s"] (some [("a", Val.num 0)]) Option.none
    (by simp) stW1_allSucc stW1_allNodup
  exact ⟨h.1, h.2.2 "x"⟩

/-- The named step resolves (at the given engine state) to a flow whose
execution always returns a failing result. -/
def FailsAlways (st : EState) (name : String) : Prop :=
  ∀ cfg, ∃ fl, (createFlow st name cfg).1 = some fl ∧
    ∀ ctx, ∃ r, fl.execute ctx = .ok r ∧ r.success = false

/-- Claim C2: in a run whose first k-1 steps always succeed and whose k-th
step always returns a failing result, the pipeline returns a failing result
whose data holds only the merges of steps 1..k-1 (the failing step's returned
data is discarded), whose error names the failing step and its cause, and
whose completed-flows log has exactly k entries with the last marked failing;
the steps after position k are never invoked (the run equals the run of the
first k names alone). -/
theorem C2_fail_fast (st : EState) (pre post : List String) (bad : String)
    (initial : Option Ctx) (cfgs : Option Cfgs)
    (hs : AllSucc st pre) (hf : FailsAlways st bad) :
    ∃ flb rb,
      (createFlow st bad (dictGet? (pyOrCfgs cfgs) bad)).1 = some flb ∧
      flb.execute (List.foldl dictUpdate (pyOrCtx initial)
        (stepDatas st pre (pyOrCtx initial) (pyOrCfgs cfgs))) = Except.ok rb ∧
      rb.success = false ∧
      (executeStandardPipeline st (pre ++ bad :: post) initial cfgs).success = false ∧
      (executeStandardPipeline st (pre ++ bad :: post) initial cfgs).data =
        List.foldl dictUpdate (pyOrCtx initial)
          (stepDatas st pre (pyOrCtx initial) (pyOrCfgs cfgs)) ∧
      (executeStandardPipeline st (pre ++ bad :: post) initial cfgs).error =
        some ("Flow " ++ bad ++ " failed: " ++ optErrStr rb.error) ∧
      (∃ entries : List Val, entries.length = pre.length ∧
        (executeStandardPipeline st (pre ++ bad :: post) initial cfgs).metadata =
          [("completed_flows", Val.list (entries ++ [logEntry bad false rb.error]))]) ∧
      executeStandardPipeline st (pre ++ bad :: post) initial cfgs =
        executeStandardPipeline st (pre ++ [bad]) initial cfgs := by
  have hne1 : (pre ++ bad :: post).isEmpty = false := by cases pre <;> rfl
  have hne2 : (pre ++ [bad]).isEmpty = false := by cases pre <;> rfl
  obtain ⟨st', cur', entries, hagree, hlen, hcur, heq⟩ :=
    runPipelineAux_append pre st (pyOrCtx initial) (pyOrCfgs cfgs) hs
  obtain ⟨flb, hflb, hexecb⟩ := hf (dictGet? (pyOrCfgs cfgs) bad)
  rcases hcb : createFlow st' bad (dictGet? (pyOrCfgs cfgs) bad) with ⟨ob, stb⟩
  have hob : ob = some flb := by
    have hh := hagree bad (dictGet? (pyOrCfgs cfgs) bad)
    rw [hcb, hflb] at hh
    exact hh
  subst hob
  obtain ⟨rb, hrb, hrbs⟩ := hexecb cur'
  have hstep : ∀ rest2 : List String,
      runPipelineAux st' (bad :: rest2) cur' (pyOrCfgs cfgs) ([] ++ entries) =
      (⟨false, cur', some ("Flow " ++ bad ++ " failed: " ++ optErrStr rb.error),
        [("completed_flows", Val.list (([] ++ entries) ++ [logEntry bad false rb.error]))]⟩,
        cur') := by
    intro rest2
    rw [runPipelineAux.eq_def]
    simp only [hcb, hrb, hrbs, Bool.false_eq_true, if_false, List.nil_append]
  have h1 := heq (bad :: post) []
  have h2 := heq [bad] []
  rw [hstep post] at h1
  rw [hstep []] at h2
  have hES1 : executeStandardPipeline st (pre ++ bad :: post) initial cfgs =
      ⟨false, cur', some ("Flow " ++ bad ++ " failed: " ++ optErrStr rb.error),
        [("completed_flows", Val.list (([] ++ entries) ++ [logEntry bad false rb.error]))]⟩ := by
    unfold executeStandardPipeline
    rw [hne1]
    simp only [Bool.false_eq_true, if_false]
    rw [h1]
  have hES2 : executeStandardPipeline st (pre ++ [bad]) initial cfgs =
      ⟨false, cur', some ("Flow " ++ bad ++ " failed: " ++ optErrStr rb.error),
        [("completed_flows", Val.list (([] ++ entries) ++ [logEntry bad false rb.error]))]⟩ := by
    unfold executeStandardPipeline
    rw [hne2]
    simp only [Bool.false_eq_true, if_false]
    rw [h2]
  rw [hcur] at hrb
  refine ⟨flb, rb, hflb, hrb, hrbs, ?_, ?_, ?_, ?_, ?_⟩
  · rw [hES1]
  · rw [hES1, hcur]
  · rw [hES1]
  · exact ⟨entries, hlen, by rw [hES1]; simp⟩
  · rw [hES1, hES2]

/-- A flow used by concrete witnesses: always fails with message "boom". -/
def flowW2 : Flow := ⟨fun _ => Except.ok ⟨false, [("junk", Val.num 9)], some "boom", []⟩⟩

/-- Factory producing `flowW2`. -/
def facW2 : Factory := fun _ _ => Except.ok flowW2

/-- Engine state registering a succeeding step "s" and a failing step "f". -/
def stW2 : EState := ⟨[("s", facW1), ("f", facW2)], []⟩

theorem stW2_allSucc : AllSucc stW2 ["s"] := by
  intro n hn cfg
  simp only [List.mem_singleton] at hn
  subst hn
  exact ⟨flowW1, rfl, fun ctx => ⟨_, rfl, rfl⟩⟩

theorem stW2_fails : FailsAlways stW2 "f" := by
  intro cfg
  exact ⟨flowW2, rfl, fun ctx => ⟨_, rfl, rfl⟩⟩

/-- Witness for C2: the concrete run halts at the failing step with the
composed error, and never invokes the step after it. -/
theorem C2_witness :
    (executeStandardPipeline stW2 ["s", "f", "t"] (some [("a", Val.num 0)])
      Option.none).success = false ∧
    executeStandardPipeline stW2 ["s", "f", "t"] (some [("a", Val.num 0)]) Option.none =
      executeStandardPipeline stW2 ["s", "f"] (some [("a", Val.num 0)]) Option.none := by
  have h := C2_fail_fast stW2 ["s"] ["t"] "f" (some [("a", Val.num 0)]) Option.none
    stW2_allSucc stW2_fails
  obtain ⟨flb, rb, _, _, _, hsucc, _, _, _, hpre⟩ := h
  exact ⟨hsucc, hpre⟩

theorem facGet?_facSet (d : List (String × Factory)) (k' k : String) (v : Factory) :
    facGet? (facSet d k' v) k = if k' = k then some v else facGet? d k := by
  induction d with
  | nil => simp [facSet, facGet?]
  | cons p rest ih =>
    obtain ⟨k₀, v₀⟩ := p
    by_cases h0 : k₀ = k'
    · subst h0
      by_cases h1 : k₀ = k <;> simp [facSet, facGet?, h1]
    · by_cases h1 : k₀ = k
      · subst h1
        simp [facSet, facGet?, h0, Ne.symm h0]
      · simp [facSet, facGet?, h0, h1, ih]

/-- A flow whose behaviour identifies the first factory of the C3 scenario. -/
def flowA : Flow := ⟨fun _ => Except.ok ⟨true, [("v", Val.num 1)], Option.none, []⟩⟩

/-- A flow whose behaviour identifies the second factory of the C3 scenario. -/
def flowB : Flow := ⟨fun _ => Except.ok ⟨true, [("v", Val.num 2)], Option.none, []⟩⟩

/-- First factory of the C3 scenario. -/
def facA : Factory := fun _ _ => Except.ok flowA

/-- Second (re-registered) factory of the C3 scenario. -/
def facB : Factory := fun _ _ => Except.ok flowB

/-- State after registering "s" with `facA`. -/
def stC3a : EState := registerFlow stEmpty "s" facA

/-- State after a default `create_flow("s")`, which caches `facA`'s instance. -/
def stC3b : EState := (createFlow stC3a "s" Option.none).2

/-- Counterexample to claim C3: after caching a default instance and then
re-registering "s" with the new factory `facB`, the next no-config create
returns the stale cached instance from the superseded factory `facA` — its
behaviour is `flowA`'s, not the behaviour of anything `facB` produces. -/
theorem C3_counterexample :
    (createFlow (registerFlow stC3b "s" facB) "s" Option.none).1 = some flowA ∧
    facB "s" Option.none = Except.ok flowB ∧
    flowA.execute [] = Except.ok ⟨true, [("v", Val.num 1)], Option.none, []⟩ ∧
    flowB.execute [] = Except.ok ⟨true, [("v", Val.num 2)], Option.none, []⟩ ∧
    flowA.execute [] ≠ flowB.execute [] := by
  refine ⟨rfl, rfl, rfl, rfl, ?_⟩
  intro h
  simp only [flowA, flowB, Except.ok.injEq, FlowResult.mk.injEq, List.cons.injEq,
    Prod.mk.injEq, Val.num.injEq] at h
  have : (1 : ℚ) = 2 := h.2.1.1.2
  norm_num at this

/-- Amended claim C3: re-registering a name replaces the factory in the
table, but does *not* invalidate the cached default instance: when a default
instance from the superseded factory is cached, the next no-config create
returns that stale instance; only when nothing is cached does the new
factory produce the instance. -/
theorem C3_amended (st : EState) (name : String) (fac : Factory) :
    facGet? (registerFlow st name fac).flows name = some fac ∧
    (∀ inst, instGet? st.instances name = some inst →
      (createFlow (registerFlow st name fac) name Option.none).1 = some inst) ∧
    (instGet? st.instances name = Option.none →
      ∀ fl, fac name Option.none = Except.ok fl →
        (createFlow (registerFlow st name fac) name Option.none).1 = some fl) := by
  have hreg : facGet? (registerFlow st name fac).flows name = some fac := by
    unfold registerFlow
    rw [facGet?_facSet]
    simp
  refine ⟨hreg, ?_, ?_⟩
  · intro inst hi
    unfold createFlow
    rw [hreg]
    have hinst : (registerFlow st name fac).instances = st.instances := rfl
    rw [hinst, hi]
  · intro hi fl hfl
    unfold createFlow
    rw [hreg]
    have hinst : (registerFlow st name fac).instances = st.instances := rfl
    rw [hinst, hi]
    simp only [hfl]

/-- Witness for the amended C3: in the concrete scenario the stale `flowA`
instance is returned after re-registration. -/
theorem C3_amended_witness :
    (createFlow (registerFlow stC3b "s" facB) "s" Option.none).1 = some flowA :=
  (C3_amended stC3b "s" facB).2.1 flowA rfl

/-- Counterexample to claim C4: with a non-empty initial context, the
caller's mapping is mutated by the run — afterwards it carries the step's
merged key and no longer equals the mapping that was passed in. -/
theorem C4_counterexample :
    callerCtxAfter stW1 ["s"] [("a", Val.num 0)] Option.none ≠ [("a", Val.num 0)] := by
  intro h
  have h2 : ([("a", Val.num 0), ("x", Val.num 1)] : Ctx) = [("a", Val.num 0)] := by
    rw [← h]
    rfl
  simp at h2

/-- Amended claim C4: the executor does not copy a non-empty caller-supplied
`initial_data`; `current_data` aliases it and `dict.update` mutates it in
place, so when the run returns, the caller's mapping equals the returned
result's `data`.  Only an empty (or absent) initial mapping — replaced by a
fresh dict by `initial_data or {}` — or an empty step list leaves the
caller's object unchanged. -/
theorem C4_amended (st : EState) (names : List String) (initial : Ctx) (cfgs : Option Cfgs) :
    (initial.isEmpty = true → callerCtxAfter st names initial cfgs = initial) ∧
    (names.isEmpty = false → initial.isEmpty = false →
      callerCtxAfter st names initial cfgs =
        (executeStandardPipeline st names (some initial) cfgs).data) := by
  constructor
  · intro h
    unfold callerCtxAfter
    by_cases hn : names.isEmpty <;> simp [hn, h]
  · intro hn hi
    unfold callerCtxAfter executeStandardPipeline
    rw [hn, hi]
    simp only [Bool.false_eq_true, if_false]
    exact runPipelineAux_snd names st initial (pyOrCfgs cfgs) []

/-- Witness for the amended C4: on the concrete mutated run the caller's
mapping ends up equal to the returned data (which gained key "x"). -/
theorem C4_amended_witness :
    callerCtxAfter stW1 ["s"] [("a", Val.num 0)] Option.none =
      (executeStandardPipeline stW1 ["s"] (some [("a", Val.num 0)]) Option.none).data :=
  (C4_amended stW1 ["s"] [("a", Val.num 0)] Option.none).2 rfl rfl

/-- Counterexample to claim C5: when the second step name is unregistered,
the engine does *not* append a `{step_name, success=false,
error="failed to create step"}` log entry — the completed-flows log keeps
only the first step's entry (one entry, not two), and the failure is
reported solely through the returned error string. -/
theorem C5_counterexample :
    (executeStandardPipeline stW1 ["s", "b"] Option.none Option.none).error =
      some "Failed to create flow: b" ∧
    (executeStandardPipeline stW1 ["s", "b"] Option.none Option.none).metadata =
      [("completed_flows", Val.list [logEntry "s" true Option.none])] ∧
    ¬ (executeStandardPipeline stW1 ["s", "b"] Option.none Option.none).metadata =
      [("completed_flows", Val.list [logEntry "s" true Option.none,
        logEntry "b" false (some "failed to create step")])] := by
  refine ⟨rfl, rfl, ?_⟩
  intro h
  rw [show (executeStandardPipeline stW1 ["s", "b"] Option.none Option.none).metadata =
      [("completed_flows", Val.list [logEntry "s" true Option.none])] from rfl] at h
  simp at h

/-- Amended claim C5: when the run reaches an unregistered step name at
position k after k-1 always-succeeding steps, the engine returns a failing
result whose data is the context accumulated through step k-1 and whose
error is "Failed to create flow: {name}"; no log entry is appended for the
failed resolution, so the completed-flows log holds exactly the k-1 earlier
entries. -/
theorem C5_amended (st : EState) (pre post : List String) (bad : String)
    (initial : Option Ctx) (cfgs : Option Cfgs)
    (hs : AllSucc st pre) (hbad : facGet? st.flows bad = Option.none) :
    (executeStandardPipeline st (pre ++ bad :: post) initial cfgs).success = false ∧
    (executeStandardPipeline st (pre ++ bad :: post) initial cfgs).data =
      List.foldl dictUpdate (pyOrCtx initial)
        (stepDatas st pre (pyOrCtx initial) (pyOrCfgs cfgs)) ∧
    (executeStandardPipeline st (pre ++ bad :: post) initial cfgs).error =
      some ("Failed to create flow: " ++ bad) ∧
    ∃ entries : List Val, entries.length = pre.length ∧
      (executeStandardPipeline st (pre ++ bad :: post) initial cfgs).metadata =
        [("completed_flows", Val.list entries)] := by
  have hne1 : (pre ++ bad :: post).isEmpty = false := by cases pre <;> rfl
  obtain ⟨st', cur', entries, hagree, hlen, hcur, heq⟩ :=
    runPipelineAux_append pre st (pyOrCtx initial) (pyOrCfgs cfgs) hs
  have hbad' : (createFlow st bad (dictGet? (pyOrCfgs cfgs) bad)).1 = Option.none := by
    unfold createFlow
    rw [hbad]
  rcases hcb : createFlow st' bad (dictGet? (pyOrCfgs cfgs) bad) with ⟨ob, stb⟩
  have hob : ob = Option.none := by
    have hh := hagree bad (dictGet? (pyOrCfgs cfgs) bad)
    rw [hcb, hbad'] at hh
    exact hh
  subst hob
  have h1 := heq (bad :: post) []
  have hstep : runPipelineAux st' (bad :: post) cur' (pyOrCfgs cfgs) ([] ++ entries) =
      (⟨false, cur', some ("Failed to create flow: " ++ bad),
        [("completed_flows", Val.list ([] ++ entries))]⟩, cur') := by
    rw [runPipelineAux.eq_def]
    simp only [hcb, List.nil_append]
  rw [hstep] at h1
  have hES : executeStandardPipeline st (pre ++ bad :: post) initial cfgs =
      ⟨false, cur', some ("Failed to create flow: " ++ bad),
        [("completed_flows", Val.list ([] ++ entries))]⟩ := by
    unfold executeStandardPipeline
    rw [hne1]
    simp only [Bool.false_eq_true, if_false]
    rw [h1]
  refine ⟨by rw [hES], by rw [hES, hcur], by rw [hES], entries, hlen, by rw [hES]; simp⟩

/-- Witness for the amended C5: the concrete run over ["s", "b"] (with "b"
unregistered) fails with the create error and a one-entry log. -/
theorem C5_amended_witness :
    (executeStandardPipeline stW1 (["s"] ++ "b" :: []) Option.none Option.none).success = false ∧
    (executeStandardPipeline stW1 (["s"] ++ "b" :: []) Option.none Option.none).error =
      some ("Failed to create flow: " ++ "b") := by
  have h := C5_amended stW1 ["s"] [] "b" Option.none Option.none stW1_allSucc rfl
  exact ⟨h.1, h.2.2.1⟩

/-- The context's "question" entry, when present, is a mapping whose
"question_text" entry, when present, is a string — the shape every Python
caller of the coordinator actually produces. -/
def WellTypedQuestion (ctx : Ctx) : Prop :=
  ∀ q, dictGet? ctx "question" = some q →
    ∃ ql, q = Val.dict ql ∧
      ∀ t, dictGet? ql "question_text" = some t → ∃ s, t = Val.str s

theorem assessComplexity_ok (ql : Ctx) (s : String)
    (hs : dictGetD ql "question_text" (Val.str "") = Val.str s) :
    ∃ c : ℚ, assessComplexity (Val.dict ql) = Except.ok c ∧ 0.3 ≤ c ∧ c ≤ 1 := by
  unfold assessComplexity
  simp only [pyGetD, hs, pyLen, pyLower, Bind.bind, Except.bind, pure, Except.pure]
  refine ⟨_, rfl, ?_, min_le_right _ _⟩
  apply le_min _ (by norm_num)
  split_ifs <;> norm_num

/-- Counterexample to claim C7: the complexity scoring is *not* total on
arbitrary context inputs — a question whose `question_text` is a number
makes `len(text)` raise, and the fault propagates out of
`analyze_content`. -/
theorem C7_counterexample :
    analyzeContent [("question", Val.dict [("question_text", Val.num 0)])] =
      Except.error "TypeError: object has no len" ∧
    assessComplexity (Val.dict [("question_text", Val.num 0)]) =
      Except.error "TypeError: object has no len" :=
  ⟨rfl, rfl⟩

/-- Amended claim C7: for every context whose question record is well-typed
(its `question_text`, when present, is a string — the shape all callers
produce), the complexity score is defined (no fault), lies in [0, 1], the
whole analysis succeeds, and the empty context deterministically yields the
low score 0.3.  On ill-typed values the scoring faults (see the
counterexample). -/
theorem C7_amended (ctx : Ctx) (hw : WellTypedQuestion ctx) :
    ∃ c : ℚ, assessComplexity (dictGetD ctx "question" (Val.dict [])) = Except.ok c ∧
      0 ≤ c ∧ c ≤ 1 ∧ (∃ a, analyzeContent ctx = Except.ok a) ∧
      (ctx = [] → c = 0.3) := by
  have hq : ∃ ql, dictGetD ctx "question" (Val.dict []) = Val.dict ql ∧
      ∀ t, dictGet? ql "question_text" = some t → ∃ s, t = Val.str s := by
    cases hg : dictGet? ctx "question" with
    | none =>
      refine ⟨[], by simp [dictGetD, hg], ?_⟩
      intro t ht
      simp [dictGet?] at ht
    | some q0 =>
      obtain ⟨ql, hql, hty⟩ := hw q0 hg
      exact ⟨ql, by simp [dictGetD, hg, hql], hty⟩
  obtain ⟨ql, hql, hty⟩ := hq
  have htext : ∃ s, dictGetD ql "question_text" (Val.str "") = Val.str s := by
    cases hg : dictGet? ql "question_text" with
    | none => exact ⟨"", by simp [dictGetD, hg]⟩
    | some t0 =>
      obtain ⟨s, hs⟩ := hty t0 hg
      exact ⟨s, by simp [dictGetD, hg, hs]⟩
  obtain ⟨s, hs⟩ := htext
  obtain ⟨c, hc, hc1, hc2⟩ := assessComplexity_ok ql s hs
  rw [hql]
  refine ⟨c, hc, by linarith, hc2, ?_, ?_⟩
  · unfold analyzeContent
    rw [hql]
    simp only [pyGetD, Bind.bind, Except.bind, hc, pure, Except.pure]
    exact ⟨_, rfl⟩
  · intro hempty
    subst hempty
    have h0 : dictGetD ([] : Ctx) "question" (Val.dict []) = Val.dict [] := rfl
    rw [h0] at hql
    have hqnil : ql = [] := by
      injection hql with h
      exact h.symm
    subst hqnil
    have : assessComplexity (Val.dict []) = Except.ok (0.3 : ℚ) := by
      unfold assessComplexity
      simp [pyGetD, pyLen, pyLower, Bind.bind, Except.bind, pure, Except.pure, dictGetD, dictGet?,
        valEqStr, strHas, complexKeywords, strLower, charsHas, charsPref]
      norm_num [min_def]
    rw [hql] at hc
    rw [this] at hc
    injection hc with hc
    exact hc.symm

/-- A concrete well-typed context for the C7 witness. -/
def ctxW7 : Ctx :=
  [("question", Val.dict [("question_text", Val.str "hi"), ("subject", Val.str "GK")])]

theorem ctxW7_wellTyped : WellTypedQuestion ctxW7 := by
  intro q hq
  have h0 : dictGet? ctxW7 "question" =
      some (Val.dict [("question_text", Val.str "hi"), ("subject", Val.str "GK")]) := rfl
  rw [h0] at hq
  injection hq with hq
  refine ⟨[("question_text", Val.str "hi"), ("subject", Val.str "GK")], hq.symm, ?_⟩
  intro t ht
  have h1 : dictGet? [("question_text", Val.str "hi"), ("subject", Val.str "GK")]
      "question_text" = some (Val.str "hi") := rfl
  rw [h1] at ht
  injection ht with ht
  exact ⟨"hi", ht.symm⟩

/-- Witness for the amended C7 at a concrete well-typed context. -/
theorem C7_amended_witness :
    ∃ c : ℚ, assessComplexity (dictGetD ctxW7 "question" (Val.dict [])) = Except.ok c ∧
      0 ≤ c ∧ c ≤ 1 ∧ (∃ a, analyzeContent ctxW7 = Except.ok a) ∧
      (ctxW7 = [] → c = 0.3) :=
  C7_amended ctxW7 ctxW7_wellTyped

theorem assess_quality (q : Ctx) (txt : String) (subj : Val)
    (htxt : dictGet? q "question_text" = some (Val.str txt))
    (hsub : dictGet? q "subject" = some subj)
    (hlen : 200 < txt.length)
    (hhc : valEqStr subj "Quant" = true ∨ valEqStr subj "Logic" = true) :
    ∃ c : ℚ, assessComplexity (Val.dict q) = Except.ok c ∧ 0.7 < c ∧ c ≤ 1 := by
  unfold assessComplexity
  simp only [pyGetD, Bind.bind, Except.bind, dictGetD, htxt, hsub, Option.getD_some, pyLen,
    pyLower, pure, Except.pure]
  have hn : txt.length > 200 := hlen
  have hor : (valEqStr subj "Quant" || valEqStr subj "Logic") = true := by
    rcases hhc with h | h <;> simp [h]
  rw [if_pos hn, hor]
  simp only [if_true]
  cases hb : complexKeywords.any (fun kw => strHas (strLower txt) kw) with
  | false =>
    simp only [hb, Bool.false_eq_true, if_false]
    refine ⟨_, rfl, ?_, min_le_right _ _⟩
    norm_num [min_def]
  | true =>
    simp only [hb, if_true]
    refine ⟨_, rfl, ?_, min_le_right _ _⟩
    norm_num [min_def]

theorem analyze_quality (ctx q : Ctx) (txt : String) (subj : Val)
    (hq : dictGet? ctx "question" = some (Val.dict q))
    (htxt : dictGet? q "question_text" = some (Val.str txt))
    (hsub : dictGet? q "subject" = some subj)
    (hlen : 200 < txt.length)
    (hhc : valEqStr subj "Quant" = true ∨ valEqStr subj "Logic" = true) :
    ∃ c : ℚ, 0.7 < c ∧ c ≤ 1 ∧ analyzeContent ctx = Except.ok (Val.dict
      [("complexity_score", Val.num c), ("recommended_strategy", Val.str "quality"),
       ("confidence", Val.num 0.85),
       ("insights", Val.str ("Analyzed " ++ pyStr subj ++ " question with "
          ++ pctStr c ++ " complexity"))]) := by
  obtain ⟨c, hc, h1, h2⟩ := assess_quality q txt subj htxt hsub hlen hhc
  refine ⟨c, h1, h2, ?_⟩
  unfold analyzeContent
  simp only [dictGetD, hq, Option.getD_some, pyGetD, hsub, Bind.bind, Except.bind, hc,
    pure, Except.pure]
  have hrec : recommendStrategy c subj = "quality" := by
    unfold recommendStrategy
    rw [if_pos h1]
  rw [hrec]

theorem plan_of_analysis (c : ℚ) (ins : String) (ctx : Ctx) :
    planStrategy (Val.dict [("complexity_score", Val.num c),
      ("recommended_strategy", Val.str "quality"), ("confidence", Val.num 0.85),
      ("insights", Val.str ins)]) ctx =
    Except.ok (Val.dict [("strategy", Val.str "quality"),
      ("pipeline_config", Val.dict (optimizePipeline (Val.str "quality") (Val.num c))),
      ("confidence", Val.num 0.90), ("estimated_time", Val.num (45 + c * 30))]) := by
  unfold planStrategy
  simp [pyGetD, dictGetD, dictGet?, Bind.bind, Except.bind, estTime, pure, Except.pure]

theorem agentExec_of_plan (st : EState) (names : List String) (data : Ctx) (elapsed : ℚ)
    (c : ℚ) :
    agentExecutePipeline st (Val.dict [("strategy", Val.str "quality"),
      ("pipeline_config", Val.dict (optimizePipeline (Val.str "quality") (Val.num c))),
      ("confidence", Val.num 0.90), ("estimated_time", Val.num (45 + c * 30))])
      names data elapsed =
    Except.ok (AgentExec.mk
      (executeStandardPipeline st names (some data)
        (some (optimizePipeline (Val.str "quality") (Val.num c))))
      elapsed (Val.str "quality")
      (executeStandardPipeline st names (some data)
        (some (optimizePipeline (Val.str "quality") (Val.num c)))).success
      (if (executeStandardPipeline st names (some data)
        (some (optimizePipeline (Val.str "quality") (Val.num c)))).success
        then 0.88 else 0.3)
      Option.none) := by
  unfold agentExecutePipeline
  simp [pyGetD, dictGetD, dictGet?, Bind.bind, Except.bind, pure, Except.pure]

theorem agenticQualityRun (st : EState) (names : List String) (ctx : Ctx)
    (cfgs : Option Cfgs) (sessionId : String) (elapsed : ℚ) (q : Ctx)
    (hq : dictGet? ctx "question" = some (Val.dict q))
    (subj : Val) (hsub : dictGet? q "subject" = some subj)
    (hhc : valEqStr subj "Quant" = true ∨ valEqStr subj "Logic" = true)
    (txt : String) (htxt : dictGet? q "question_text" = some (Val.str txt))
    (hlen : 200 < txt.length) :
    ∃ c conf : ℚ, 0.7 < c ∧ c ≤ 1 ∧ (conf = 0.88 ∨ conf = 0.3) ∧
      dictGet? (executePipeline st names (some ctx) cfgs true sessionId elapsed).metadata
        "strategy_used" =
        some (Val.dict [("strategy", Val.str "quality"),
          ("pipeline_config", Val.dict (optimizePipeline (Val.str "quality") (Val.num c))),
          ("confidence", Val.num 0.90), ("estimated_time", Val.num (45 + c * 30))]) ∧
      dictGet? (executePipeline st names (some ctx) cfgs true sessionId elapsed).metadata
        "confidence" = some (Val.num conf) := by
  obtain ⟨c, h1, h2, hanalyze⟩ := analyze_quality ctx q txt subj hq htxt hsub hlen hhc
  unfold executePipeline
  rw [if_pos rfl]
  unfold executeAgenticPipeline
  dsimp only [pyOrCtx]
  rw [hanalyze]
  simp only [Bind.bind, Except.bind]
  rw [plan_of_analysis c _ ctx]
  dsimp only
  rw [agentExec_of_plan st names ctx elapsed c]
  dsimp only
  simp only [pure, Except.pure]
  set r0 := executeStandardPipeline st names (some ctx)
    (some (optimizePipeline (Val.str "quality") (Val.num c))) with hr0
  have hnodup : NodupKeys
      [("session_id", Val.str sessionId),
       ("agent_analysis", Val.dict
         [("complexity_score", Val.num c), ("recommended_strategy", Val.str "quality"),
          ("confidence", Val.num 0.85),
          ("insights", Val.str ("Analyzed " ++ pyStr subj ++ " question with "
            ++ pctStr c ++ " complexity"))]),
       ("strategy_used", Val.dict [("strategy", Val.str "quality"),
          ("pipeline_config", Val.dict (optimizePipeline (Val.str "quality") (Val.num c))),
          ("confidence", Val.num 0.90), ("estimated_time", Val.num (45 + c * 30))]),
       ("execution_time", Val.num elapsed),
       ("confidence", Val.num (if r0.success = true then 0.88 else 0.3)),
       ("agentic_mode", Val.bool true)] := by
    unfold NodupKeys
    simp [List.nodup_cons]
  refine ⟨c, if r0.success = true then 0.88 else 0.3, h1, h2, ?_, ?_, ?_⟩
  · by_cases hs : r0.success = true <;> simp [hs]
  · rw [dictGet?_dictUpdate _ hnodup]
    simp [dictGet?]
  · rw [dictGet?_dictUpdate _ hnodup]
    simp [dictGet?]

/-- A 201-character question text (exceeding the 200-character threshold). -/
def txtW9 : String := String.mk (List.replicate 201 'a')

/-- A high-complexity question record for the C9 scenario. -/
def qW9 : Ctx := [("subject", Val.str "Quant"), ("question_text", Val.str txtW9)]

/-- A context carrying the C9 scenario question. -/
def ctxW9 : Ctx := [("question", Val.dict qW9)]

set_option maxRecDepth 8192 in
/-- Counterexample to claim C9: in the adaptive run over a high-complexity,
long-text question, `metadata.strategy_used` is the whole strategy *plan
record* (a dict), not the strategy name "quality" — the claim's asserted
equality with the name fails. -/
theorem C9_counterexample :
    ¬ dictGet? (executePipeline stEmpty ["x"] (some ctxW9) Option.none true
        "sid" 5).metadata "strategy_used" = some (Val.str "quality") := by
  obtain ⟨c, conf, h1, h2, hconf, hsu, hcf⟩ :=
    agenticQualityRun stEmpty ["x"] ctxW9 Option.none "sid" 5 qW9 rfl
      (Val.str "Quant") rfl (Or.inl rfl) txtW9 rfl (by decide)
  intro h
  rw [hsu] at h
  injection h with h
  exact Val.noConfusion h

/-- Amended claim C9: in an adaptive run whose context carries a question
with a high-complexity subject ("Quant"/"Logic") and text longer than 200
characters, `metadata.strategy_used` holds the strategy plan record whose
"strategy" field is the name "quality", and `metadata.confidence` is a value
in (0, 1]. -/
theorem C9_amended (st : EState) (names : List String) (ctx : Ctx) (cfgs : Option Cfgs)
    (sessionId : String) (elapsed : ℚ) (q : Ctx)
    (hq : dictGet? ctx "question" = some (Val.dict q))
    (subj : String) (hsub : dictGet? q "subject" = some (Val.str subj))
    (hhc : subj = "Quant" ∨ subj = "Logic")
    (txt : String) (htxt : dictGet? q "question_text" = some (Val.str txt))
    (hlen : 200 < txt.length) :
    ∃ (plan : Val) (pl : Ctx) (conf : ℚ),
      dictGet? (executePipeline st names (some ctx) cfgs true sessionId elapsed).metadata
        "strategy_used" = some plan ∧
      plan = Val.dict pl ∧ dictGet? pl "strategy" = some (Val.str "quality") ∧
      dictGet? (executePipeline st names (some ctx) cfgs true sessionId elapsed).metadata
        "confidence" = some (Val.num conf) ∧ 0 < conf ∧ conf ≤ 1 := by
  have hhc' : valEqStr (Val.str subj) "Quant" = true ∨
      valEqStr (Val.str subj) "Logic" = true := by
    rcases hhc with h | h
    · left
      simp [valEqStr, h]
    · right
      simp [valEqStr, h]
  obtain ⟨c, conf, h1, h2, hconf, hsu, hcf⟩ :=
    agenticQualityRun st names ctx cfgs sessionId elapsed q hq (Val.str subj) hsub
      hhc' txt htxt hlen
  refine ⟨_, _, conf, hsu, rfl, ?_, hcf, ?_, ?_⟩
  · simp [dictGet?]
  · rcases hconf with h | h <;> rw [h] <;> norm_num
  · rcases hconf with h | h <;> rw [h] <;> norm_num

set_option maxRecDepth 8192 in
/-- Witness for the amended C9 at a concrete scenario context. -/
theorem C9_amended_witness :
    ∃ (plan : Val) (pl : Ctx) (conf : ℚ),
      dictGet? (executePipeline stEmpty ["x"] (some ctxW9) Option.none true
        "sid" 5).metadata "strategy_used" = some plan ∧
      plan = Val.dict pl ∧ dictGet? pl "strategy" = some (Val.str "quality") ∧
      dictGet? (executePipeline stEmpty ["x"] (some ctxW9) Option.none true
        "sid" 5).metadata "confidence" = some (Val.num conf) ∧ 0 < conf ∧ conf ≤ 1 :=
  C9_amended stEmpty ["x"] ctxW9 Option.none "sid" 5 qW9 rfl "Quant" rfl (Or.inl rfl)
    txtW9 rfl (by decide)

end PB
